import Mathlib

/-!
Verification development for `termscript.py`, a program that drives an
interactive terminal session: it compiles a YAML script into commands,
replays them through a pseudo-terminal while pacing keystrokes, and then
hands control to the interactive user.

The definitions below are a shallow embedding of the Python source:
strings and byte sequences are `List Nat` of code points / byte values,
floats are `ℚ`, fallible operations (`ord`, `chr`, `float`) return
`Option`, and the generator-based scheduler and the select loop are
modelled as explicit state-passing functions.
-/

namespace Termscript

/-- Code points of a Lean string literal, used to transcribe the Python
string literals of the source. -/
def strN (s : String) : List Nat := s.data.map Char.toNat

/-- ASCII fragment of Python `str.lower` on a single code point. -/
def lowerChar (c : Nat) : Nat := if 65 ≤ c ∧ c ≤ 90 then c + 32 else c

/-- ASCII fragment of Python `str.upper` on a single code point. -/
def upperChar (c : Nat) : Nat := if 97 ≤ c ∧ c ≤ 122 then c - 32 else c

/-- Python `str.lower` applied to a whole string (ASCII fragment). -/
def mapLower (l : List Nat) : List Nat := l.map lowerChar

/-- Python `chr`: defined exactly on `0 ≤ n < 0x110000`, raising
`ValueError` (modelled as `none`) otherwise. -/
def pyChr (n : Int) : Option Nat :=
  if 0 ≤ n ∧ n < 1114112 then some n.toNat else none

/-- Whether the first list is an initial segment of the second
(the check Python performs for `startswith` and inside `in`). -/
def startsWithB : List Nat → List Nat → Bool
  | [], _ => true
  | _ :: _, [] => false
  | a :: as, b :: bs => a == b && startsWithB as bs

/-- Python `pattern in data` on byte strings: contiguous-substring
containment. -/
def bytesContains (p : List Nat) : List Nat → Bool
  | [] => p.isEmpty
  | d :: ds => startsWithB p (d :: ds) || bytesContains p ds

/-- Python `ctrl(c)`: `chr(ord(c.upper()) - ord('A') + 1)`.  `none` models the
exception raised when the argument is not a single character or the
`chr` argument is out of range. -/
def ctrlEnc : List Nat → Option (List Nat)
  | [c] =>
    match pyChr ((upperChar c : Int) - 65 + 1) with
    | some b => some [b]
    | none => none
  | _ => none

/-- Python `alt(c)`: `'\x1b' + chr(ord(c.lower()) - ord('a') + 1)`. -/
def altEnc : List Nat → Option (List Nat)
  | [c] =>
    match pyChr ((lowerChar c : Int) - 97 + 1) with
    | some b => some [27, b]
    | none => none
  | _ => none

/-- Python `alt_shift(c)`: `'\x1b' + chr(ord(c.upper()) - ord('a') + 1)`.
Note the source subtracts `ord('a')` (97) from an upper-cased character,
so for every ASCII letter the `chr` argument is negative. -/
def altShiftEnc : List Nat → Option (List Nat)
  | [c] =>
    match pyChr ((upperChar c : Int) - 97 + 1) with
    | some b => some [27, b]
    | none => none
  | _ => none

/-- The `KEYCODES` table: `esc`, `del`, the CSI arrow keys and `el`
(`ctrl(b'U')`, which evaluates to byte 21). -/
def KEYCODES : List (List Nat × List Nat) :=
  [ (strN "esc", [27]),
    (strN "del", [127]),
    (strN "up", [27, 91, 65]),
    (strN "down", [27, 91, 66]),
    (strN "right", [27, 91, 67]),
    (strN "left", [27, 91, 68]),
    (strN "el", [21]) ]

/-- Model of `KEYCODES.get(name)`. -/
def keyTableGet (k : List Nat) : Option (List Nat) := KEYCODES.lookup k

def ctrlDashL : List Nat := strN "ctrl-"

def altShiftL : List Nat := strN "alt-shift-"

def shiftAltL : List Nat := strN "shift-alt-"

def altDashL : List Nat := strN "alt-"

/-- Function `_escape_keys` applied to the matched group `g`: lower-case the name,
try the `ctrl-` / `alt-shift-` / `shift-alt-` / `alt-` encoders (each
`try` that raises falls through), and finally fall back to
`KEYCODES.get(name, '')`. -/
def escapeKeys (g : List Nat) : List Nat :=
  let k := mapLower g
  if startsWithB ctrlDashL k then
    match ctrlEnc (k.drop 5) with
    | some r => r
    | none => (keyTableGet k).getD []
  else if startsWithB altShiftL k || startsWithB shiftAltL k then
    match altShiftEnc (k.drop 10) with
    | some r => r
    | none => (keyTableGet k).getD []
  else if startsWithB altDashL k then
    match altEnc (k.drop 4) with
    | some r => r
    | none => (keyTableGet k).getD []
  else (keyTableGet k).getD []

/-- A simple script command: `CmdType`, `CmdWait` (whose argument must be
`'prompt'`) or `CmdSleep`. -/
inductive SCmd where
  | type (text : String)
  | wait
  | sleep (t : ℚ)
deriving DecidableEq

/-- A compiled command: either a simple command object or the `Sequence`
returned by the `CmdEnter` factory. -/
inductive Cmd where
  | simple (c : SCmd)
  | seq (cs : List SCmd)
deriving DecidableEq

/-- Python `text.endswith('\n')`: the last character is a newline. -/
def strEndsWithNL (s : String) : Bool := s.data.getLast? == some '\n'

/-- Factory `CmdEnter(text)`: append a newline unless the text already ends with
one, then return `Sequence((CmdType(text), CmdWait('prompt')))`. -/
def CmdEnterDef (text : String) : Cmd :=
  Cmd.seq [SCmd.type (if strEndsWithNL text then text else text ++ "\n"), SCmd.wait]

/-- Model of Python's `float()` on the scalar strings a script may carry:
optional sign, then digits with an optional fractional part.  (`float` is
a Python builtin, external to the source; only definedness matters to the
claims.) -/
def pyFloat (s : String) : Option ℚ :=
  let cs := s.data
  let signed : ℚ × List Char :=
    match cs with
    | '-' :: r => (-1, r)
    | '+' :: r => (1, r)
    | r => (1, r)
  let intPart := signed.2.takeWhile Char.isDigit
  let after := signed.2.drop intPart.length
  let digitsToNat : List Char → ℕ :=
    fun l => l.foldl (fun acc c => acc * 10 + (c.toNat - 48)) 0
  match after with
  | [] => if intPart.isEmpty then none else some (signed.1 * digitsToNat intPart)
  | '.' :: fr =>
    if fr.all Char.isDigit && !(intPart.isEmpty && fr.isEmpty) then
      some (signed.1 * ((digitsToNat intPart : ℚ) + (digitsToNat fr : ℚ) / 10 ^ fr.length))
    else none
  | _ => none

/-- Lookup `SCRIPT_COMMANDS.get(name)` followed by `cmd_class(arg)`: `none` when
the name is not registered (the registered names are `enter`, `type`,
`wait` and `sleep`), `some (Except.error _)` when the constructor raises,
`some (Except.ok _)` when construction succeeds. -/
def mkCommand (name arg : String) : Option (Except Unit Cmd) :=
  if name = "enter" then some (Except.ok (CmdEnterDef arg))
  else if name = "type" then some (Except.ok (Cmd.simple (SCmd.type arg)))
  else if name = "wait" then
    some (if arg = "prompt" then Except.ok (Cmd.simple SCmd.wait) else Except.error ())
  else if name = "sleep" then
    some (match pyFloat arg with
          | some q => Except.ok (Cmd.simple (SCmd.sleep q))
          | none => Except.error ())
  else none

instance {ε α : Type} [DecidableEq ε] [DecidableEq α] : DecidableEq (Except ε α) := by
  intro a b
  cases a with
  | error e =>
    cases b with
    | error f => exact decidable_of_iff (e = f) (by simp)
    | ok y => exact isFalse (by simp)
  | ok x =>
    cases b with
    | error f => exact isFalse (by simp)
    | ok y => exact decidable_of_iff (x = y) (by simp)

/-- The YAML scanner tokens `compile` inspects. -/
inductive YToken where
  | streamStart
  | streamEnd
  | blockMappingStart
  | blockEnd
  | key
  | value
  | scalar (s : String)
  | blockSequenceStart
  | blockEntry
deriving DecidableEq

/-- Failure modes of `compile`: `_expect_token` raising `ScriptParseError`
(`invalidSyntax`), an unregistered command name, a command constructor
raising (wrapped into a `ScriptParseError`), or `StopIteration` escaping
from an exhausted token stream. -/
inductive CompErr where
  | invalidSyntax
  | unknownCommand (name : String)
  | badArgument
  | stopIteration
deriving DecidableEq

/-- The token loop of `compile`: each entry must be `KeyToken`,
`ScalarToken` (the command name), `ValueToken`, `ScalarToken` (the
argument); a `BlockEndToken` ends the loop, after which a
`StreamEndToken` is expected. -/
def compileLoop : List YToken → List Cmd → Except CompErr (List Cmd)
  | [], _ => Except.error CompErr.stopIteration
  | YToken.blockEnd :: rest, acc =>
    (match rest with
     | YToken.streamEnd :: _ => Except.ok acc.reverse
     | [] => Except.error CompErr.stopIteration
     | _ :: _ => Except.error CompErr.invalidSyntax)
  | YToken.key :: YToken.scalar name :: YToken.value :: YToken.scalar arg :: rest, acc =>
    (match mkCommand name arg with
     | none => Except.error (CompErr.unknownCommand name)
     | some (Except.error _) => Except.error CompErr.badArgument
     | some (Except.ok c) => compileLoop rest (c :: acc))
  | [YToken.key, YToken.scalar _, YToken.value], _ => Except.error CompErr.stopIteration
  | YToken.key :: YToken.scalar _ :: YToken.value :: _ :: _, _ =>
    Except.error CompErr.invalidSyntax
  | [YToken.key, YToken.scalar _], _ => Except.error CompErr.stopIteration
  | YToken.key :: YToken.scalar _ :: _ :: _, _ => Except.error CompErr.invalidSyntax
  | [YToken.key], _ => Except.error CompErr.stopIteration
  | YToken.key :: _ :: _, _ => Except.error CompErr.invalidSyntax
  | _ :: _, _ => Except.error CompErr.invalidSyntax

/-- Function `compile(script)` over the scanned token stream: expect
`StreamStartToken` then `BlockMappingStartToken`, then run the entry
loop. -/
def compileTokens : List YToken → Except CompErr (List Cmd)
  | YToken.streamStart :: YToken.blockMappingStart :: rest => compileLoop rest []
  | [YToken.streamStart] => Except.error CompErr.stopIteration
  | YToken.streamStart :: _ :: _ => Except.error CompErr.invalidSyntax
  | [] => Except.error CompErr.stopIteration
  | _ :: _ => Except.error CompErr.invalidSyntax

/-- The low-level actions the scheduler yields: `ActSleep` stores the
absolute deadline `time.time() + timeout`, `ActWaitSequence` stores the
byte pattern. -/
inductive Act where
  | sleep (deadline : ℚ)
  | waitSeq (pat : List Nat)
deriving DecidableEq

/-- The OSC-777 marker `CmdWait.execute` waits for:
`b'\x1B]777;notify;Command completed;'`. -/
def waitMarker : List Nat := strN "\x1B]777;notify;Command completed;"

/-- Generator `CmdWait.execute`: yields a single `ActWaitSequence` on the marker. -/
def cmdWaitActs : List Act := [Act.waitSeq waitMarker]

/-- Events of `CmdType.execute` in program order: a yielded
`ActSleep` or an `os.write` of one character to the master. -/
inductive TEv where
  | sleepUntil (deadline : ℚ)
  | write (c : Nat)
deriving DecidableEq

/-- Function `_rand_range(start, end)` with `random.random() = r`. -/
def randRange (a b r : ℚ) : ℚ := a + r * (b - a)

/-- Event sequence of `CmdType.execute` over the expanded text (the text
after `unicode_escape` decoding and `<key>` markup substitution, both of
which happen before the loop): for each character, yield
`ActSleep(_rand_range(0.05, 0.2))` — whose stored deadline is
`time.time() + timeout` — then write the character.  `rands i` is the
`random.random()` draw and `nows i` the `time.time()` reading for the
`i`-th character. -/
def cmdTypeTrace (rands nows : Nat → ℚ) : List Nat → Nat → List TEv
  | [], _ => []
  | c :: cs, i =>
    TEv.sleepUntil (nows i + randRange (1/20) (1/5) (rands i)) ::
      TEv.write c :: cmdTypeTrace rands nows cs (i + 1)

/-- State of the `_copy` loop.  The script runner (a Python generator) is
modelled by its remaining resume steps: each `runner.send(None)` performs
some writes to the master and then yields an action; the final resume
performs `finalWrites` and raises `StopIteration`.  `steps = none` is
`runner = None`. -/
structure St where
  steps : Option (List (List Nat × Act))
  finalWrites : List Nat
  action : Option Act
  timeout : Option ℚ
  watchMaster : Bool
  watchStdin : Bool
  masterW : List Nat
  stdoutW : List Nat
deriving DecidableEq

/-- The readable sources one `select` round reports: `some bytes` means
the descriptor was ready and `os.read` returned `bytes` (empty = EOF). -/
structure SelIn where
  masterData : Option (List Nat)
  stdinData : Option (List Nat)
  sigs : Option (List Nat)
deriving DecidableEq

/-- The inner `while runner:` loop of `_copy`: while a sleep deadline has
passed (`timeout < 0`, with the Python truthiness test on the stored
deadline first), clear the action and resume the runner; stop advancing
once an action is pending or the runner raises `StopIteration`.  Returns
the new runner steps, action, `timeout` variable, and the bytes the
resumed runner wrote to the master. -/
def advance (now : ℚ) (final : List Nat) :
    List (List Nat × Act) → Option Act → Option ℚ →
      Option (List (List Nat × Act)) × Option Act × Option ℚ × List Nat
  | [], act, tm =>
    (match act with
     | some (Act.sleep t) =>
       if t ≠ 0 then
         if t - now < 0 then (none, none, none, final)
         else (some [], some (Act.sleep t), some (t - now), [])
       else (some [], some (Act.sleep t), tm, [])
     | some (Act.waitSeq p) => (some [], some (Act.waitSeq p), tm, [])
     | none => (none, none, tm, final))
  | (w, a) :: rest, act, tm =>
    (match act with
     | some (Act.sleep t) =>
       if t ≠ 0 then
         if t - now < 0 then
           let r := advance now final rest (some a) none
           (r.1, r.2.1, r.2.2.1, w ++ r.2.2.2)
         else (some ((w, a) :: rest), some (Act.sleep t), some (t - now), [])
       else (some ((w, a) :: rest), some (Act.sleep t), tm, [])
     | some (Act.waitSeq p) => (some ((w, a) :: rest), some (Act.waitSeq p), tm, [])
     | none => (some rest, some a, tm, w))

/-- Run the inner runner-advancing loop on a loop state. -/
def advanceSt (now : ℚ) (s : St) : St :=
  match s.steps with
  | none => s
  | some steps =>
    let r := advance now s.finalWrites steps s.action s.timeout
    { s with steps := r.1, action := r.2.1, timeout := r.2.2.1,
             masterW := s.masterW ++ r.2.2.2 }

/-- Function `_handle_master_read(data)`: if a wait-sequence action is outstanding
(and its pattern truthy) and the pattern occurs in the chunk, clear the
action; always pass the whole chunk to `_write_stdout`. -/
def handleMasterRead (a : Option Act) (d : List Nat) : Option Act × List Nat :=
  match a with
  | some (Act.waitSeq p) =>
    if !p.isEmpty && bytesContains p d then (none, d) else (some (Act.waitSeq p), d)
  | other => (other, d)

/-- Master-readable branch of the loop body: on EOF stop watching the
master, otherwise run `_handle_master_read`. -/
def masterPhase (md : Option (List Nat)) (s : St) : St :=
  match md with
  | some d =>
    if s.watchMaster then
      if d.isEmpty then { s with watchMaster := false }
      else
        let r := handleMasterRead s.action d
        { s with action := r.1, stdoutW := s.stdoutW ++ r.2 }
    else s
  | none => s

/-- Stdin-readable branch: on EOF stop watching stdin; otherwise forward
the chunk to the master only when the runner is `None`
(`if not runner: _handle_stdin_read(data)`). -/
def stdinPhase (sd : Option (List Nat)) (s : St) : St :=
  match sd with
  | some d =>
    if s.watchStdin then
      if d.isEmpty then { s with watchStdin := false }
      else if s.steps.isNone then { s with masterW := s.masterW ++ d }
      else s
    else s
  | none => s

/-- Signal branch: scan the drained signal numbers in order; `SIGCHLD`
(17), `SIGHUP` (1), `SIGTERM` (15) or `SIGQUIT` (3) closes the master and
returns from `_copy`; `SIGWINCH` only resizes the pseudo-terminal. -/
def handleSigs : List Nat → Bool
  | [] => false
  | sig :: rest =>
    if sig = 17 ∨ sig = 1 ∨ sig = 15 ∨ sig = 3 then true else handleSigs rest

/-- The dispatch part of one `_copy` iteration (after the runner has been
advanced): master read, then stdin read, then signals.  The `Bool` is
whether `_copy` returned. -/
def ioPhase (inp : SelIn) (s : St) : St × Bool :=
  (stdinPhase inp.stdinData (masterPhase inp.masterData s),
   match inp.sigs with
   | some bytes => handleSigs bytes
   | none => false)

/-- One full iteration of the `while True:` loop of `_copy`. -/
def copyStep (now : ℚ) (inp : SelIn) (s : St) : St × Bool :=
  ioPhase inp (advanceSt now s)

/-- How `_copy` ended: a normal return (script done and a terminating
signal arrived), or an `IOError`/`OSError` raised inside the loop and
caught by `record_command`. -/
inductive CopyExit where
  | returned
  | signalReturn
  | ioError
deriving DecidableEq

/-- The real input stream's terminal state: its current mode and how many
times `tcsetattr` has restored the saved mode. -/
structure TermState where
  mode : Nat
  restores : Nat
deriving DecidableEq

/-- Method `raw.__enter__`: save the mode and enter raw mode when `tcgetattr`
succeeds (`isTty`), recording that restoration is due; otherwise the
`termios.error` is swallowed and nothing is saved. -/
def rawEnter (isTty : Bool) (rawMode : Nat) (t : TermState) : TermState × Option Nat :=
  if isTty then ({ t with mode := rawMode }, some t.mode) else (t, none)

/-- Method `raw.__exit__`: restore the saved mode exactly when one was saved. -/
def rawExit (saved : Option Nat) (t : TermState) : TermState :=
  match saved with
  | some m => { mode := m, restores := t.restores + 1 }
  | none => t

/-- The terminal-mode effect of `record_command`'s session block:
`with raw(pty.STDIN_FILENO):` around `_copy`, whose `IOError`/`OSError`
is swallowed by the inner `try`/`except`; the `with` statement runs
`__exit__` on every path out of the block. -/
def recordCommandTerm (isTty : Bool) (rawMode : Nat) (ex : CopyExit) (t : TermState) :
    TermState :=
  let entered := rawEnter isTty rawMode t
  let afterBody :=
    match ex with
    | CopyExit.returned => entered.1
    | CopyExit.signalReturn => entered.1
    | CopyExit.ioError => entered.1
  rawExit entered.2 afterBody

theorem startsWithB_iff (p : List Nat) : ∀ d : List Nat,
    startsWithB p d = true ↔ ∃ t, d = p ++ t := by
  induction p with
  | nil =>
    intro d
    simp [startsWithB]
  | cons a as ih =>
    intro d
    cases d with
    | nil =>
      simp [startsWithB]
    | cons b bs =>
      constructor
      · intro h
        rw [startsWithB, Bool.and_eq_true, beq_iff_eq] at h
        obtain ⟨t, ht⟩ := (ih bs).mp h.2
        exact ⟨t, by rw [h.1, ht]; rfl⟩
      · rintro ⟨t, ht⟩
        rw [List.cons_append] at ht
        injection ht with h1 h2
        rw [startsWithB, Bool.and_eq_true, beq_iff_eq]
        exact ⟨h1.symm, (ih bs).mpr ⟨t, h2⟩⟩

theorem bytesContains_iff (p : List Nat) : ∀ d : List Nat,
    bytesContains p d = true ↔ ∃ pre suf, d = pre ++ p ++ suf := by
  intro d
  induction d with
  | nil =>
    rw [bytesContains]
    constructor
    · intro h
      exact ⟨[], [], by simp [List.isEmpty_iff.mp h]⟩
    · rintro ⟨pre, suf, h⟩
      rw [List.isEmpty_iff]
      rcases List.append_eq_nil.mp h.symm with ⟨h1, h2⟩
      rcases List.append_eq_nil.mp h1 with ⟨-, h3⟩
      exact h3
  | cons b bs ih =>
    rw [bytesContains, Bool.or_eq_true, startsWithB_iff, ih]
    constructor
    · rintro (⟨t, ht⟩ | ⟨pre, t, ht⟩)
      · exact ⟨[], t, by simp [ht]⟩
      · exact ⟨b :: pre, t, by simp [ht]⟩
    · rintro ⟨pre, t, ht⟩
      cases pre with
      | nil =>
        exact Or.inl ⟨t, by simpa using ht⟩
      | cons x pre =>
        rw [List.cons_append, List.cons_append] at ht
        injection ht with h1 h2
        exact Or.inr ⟨pre, t, by simpa using h2⟩

theorem masterPhase_inv (md : Option (List Nat)) (s : St) :
    (masterPhase md s).steps = s.steps ∧ (masterPhase md s).masterW = s.masterW ∧
      (masterPhase md s).watchStdin = s.watchStdin := by
  cases md with
  | none => exact ⟨rfl, rfl, rfl⟩
  | some d =>
    rw [masterPhase]
    split_ifs <;> exact ⟨rfl, rfl, rfl⟩

theorem stdinPhase_inv (sd : Option (List Nat)) (s : St) :
    (stdinPhase sd s).action = s.action ∧ (stdinPhase sd s).stdoutW = s.stdoutW := by
  cases sd with
  | none => exact ⟨rfl, rfl⟩
  | some d =>
    rw [stdinPhase]
    split_ifs <;> exact ⟨rfl, rfl⟩

theorem cmdTypeTrace_writes (rands nows : Nat → ℚ) : ∀ (text : List Nat) (i : Nat),
    (cmdTypeTrace rands nows text i).filterMap
      (fun e => match e with | TEv.write c => some c | _ => none) = text := by
  intro text
  induction text with
  | nil => intro i; rfl
  | cons c cs ih =>
    intro i
    rw [cmdTypeTrace, List.filterMap_cons, List.filterMap_cons]
    simpa using ih (i + 1)

theorem cmdTypeTrace_eq (rands nows : Nat → ℚ) : ∀ (text : List Nat) (i : Nat),
    cmdTypeTrace rands nows text i
      = (List.enumFrom i text).flatMap (fun p =>
          [TEv.sleepUntil (nows p.1 + randRange (1/20) (1/5) (rands p.1)),
           TEv.write p.2]) := by
  intro text
  induction text with
  | nil => intro i; rfl
  | cons c cs ih =>
    intro i
    rw [cmdTypeTrace, List.enumFrom, List.flatMap_cons, ih (i + 1)]
    rfl

theorem randRange_bounds (r : ℚ) (h0 : 0 ≤ r) (h1 : r < 1) :
    1/20 ≤ randRange (1/20) (1/5) r ∧ randRange (1/20) (1/5) r ≤ 1/5 := by
  rw [randRange]
  constructor <;> nlinarith

theorem advanceSt_pending (s : St) (t now : ℚ)
    (ha : s.action = some (Act.sleep t)) (ht : t ≠ 0) (hnow : ¬(t - now < 0)) :
    (advanceSt now s).masterW = s.masterW ∧ (advanceSt now s).steps = s.steps := by
  obtain ⟨st, fw, a, tm, wm, ws, mw, ow⟩ := s
  simp only at ha
  subst ha
  cases st with
  | none => exact ⟨rfl, rfl⟩
  | some steps =>
    cases steps with
    | nil => simp [advanceSt, advance, ht, hnow]
    | cons p rest =>
      obtain ⟨w, act⟩ := p
      simp [advanceSt, advance, ht, hnow]

theorem strEndsWithNL_append (s : String) : strEndsWithNL (s ++ "\n") = true := by
  rw [strEndsWithNL]
  have h : (s ++ "\n").data = s.data ++ ['\n'] := String.data_append s "\n"
  rw [h, List.getLast?_concat]
  rfl

/-- C1 (counterexample): a script with a bare `wait-prompt` entry does
not compile.  As a lone mapping key without a value the scanner emits no
argument scalar and `compile` raises a `ScriptParseError`; as a YAML list
entry the expected `BlockMappingStartToken` is missing; and even with an
argument, `wait-prompt` is not a registered command name. -/
theorem c1_counterexample :
    compileTokens [YToken.streamStart, YToken.blockMappingStart, YToken.key,
        YToken.scalar "wait-prompt", YToken.value, YToken.blockEnd, YToken.streamEnd]
      = Except.error CompErr.invalidSyntax
    ∧ compileTokens [YToken.streamStart, YToken.blockSequenceStart, YToken.blockEntry,
        YToken.scalar "wait-prompt", YToken.blockEnd, YToken.streamEnd]
      = Except.error CompErr.invalidSyntax
    ∧ mkCommand "wait-prompt" "prompt" = none := by
  exact ⟨by decide, by decide, by decide⟩

/-- C1 (amended): the input accepted by `compile` is a YAML block mapping
whose entries are each a command-name key with a scalar argument; the
recognized command names are exactly `enter`, `type`, `wait` and `sleep`
(with `wait` taking the argument `prompt`); a `wait: prompt` entry
compiles while a bare `wait-prompt` entry is a parse error. -/
theorem c1_amended :
    (∀ name arg : String, (mkCommand name arg).isSome = true
        ↔ (name = "enter" ∨ name = "type" ∨ name = "wait" ∨ name = "sleep"))
    ∧ compileTokens [YToken.streamStart, YToken.blockMappingStart, YToken.key,
        YToken.scalar "wait", YToken.value, YToken.scalar "prompt",
        YToken.blockEnd, YToken.streamEnd] = Except.ok [Cmd.simple SCmd.wait]
    ∧ compileTokens [YToken.streamStart, YToken.blockMappingStart, YToken.key,
        YToken.scalar "wait-prompt", YToken.value, YToken.blockEnd, YToken.streamEnd]
      = Except.error CompErr.invalidSyntax := by
  refine ⟨?_, by decide, by decide⟩
  intro name arg
  rw [mkCommand]
  split_ifs with h1 h2 h3 h4 <;> simp_all

/-- C2 (counterexample): encoding `alt-a` yields ESC followed by byte 1
(the control code of the letter), not ESC followed by the letter `a`
(byte 97) as the claim states. -/
theorem c2_counterexample :
    escapeKeys (strN "alt-a") = [27, 1] ∧ escapeKeys (strN "alt-a") ≠ [27, 97] := by
  exact ⟨by decide, by decide⟩

/-- C2 (amended): for every letter `l`, encoding `alt-` followed by `l`
produces the ESC byte followed by the control code of the lowercase form
of `l` (the byte `lowercase(l) - ord('a') + 1`); in particular
`encode("alt-a") = ESC + '\x01'`. -/
theorem c2_amended (c : Nat) (h : (65 ≤ c ∧ c ≤ 90) ∨ (97 ≤ c ∧ c ≤ 122)) :
    escapeKeys (altDashL ++ [c]) = [27, lowerChar c - 96] := by
  rcases h with ⟨h1, h2⟩ | ⟨h1, h2⟩ <;> interval_cases c <;> decide

/-- C2 witness: `c2_amended` at the letter `a`. -/
theorem c2_amended_witness :
    escapeKeys (altDashL ++ [97]) = [27, lowerChar 97 - 96] :=
  c2_amended 97 (Or.inr ⟨by norm_num, by norm_num⟩)

/-- C3 (code bug evaluation): `alt_shift` computes
`chr(ord(c.upper()) - ord('a') + 1)`, whose argument is negative for
every ASCII letter, so the call always raises `ValueError`; the encoder
swallows it and falls back to the empty result instead of producing
ESC followed by the control code of the uppercase letter. -/
theorem c3_code_evaluation :
    escapeKeys (strN "alt-shift-a") = []
    ∧ escapeKeys (strN "shift-alt-q") = []
    ∧ altShiftEnc [97] = none
    ∧ (upperChar 97 : Int) - 97 + 1 = -31 := by
  exact ⟨by decide, by decide, by decide, by decide⟩

/-- C8 (counterexample): for a text already ending in a newline, `Enter`
does not append another newline: `CmdEnter("a\n")` expands to
`Type("a\n")`, not `Type("a\n" + "\n")`. -/
theorem c8_counterexample :
    CmdEnterDef "a\n" = Cmd.seq [SCmd.type "a\n", SCmd.wait]
    ∧ CmdEnterDef "a\n" ≠ Cmd.seq [SCmd.type ("a\n" ++ "\n"), SCmd.wait] := by
  exact ⟨by decide, by decide⟩

/-- C8 (amended): `Enter(text)` expands to `Type(text')` followed by
`WaitPrompt`, where `text'` is `text` with a newline appended only when
`text` does not already end with one; `text'` always ends with a
newline. -/
theorem c8_amended (text : String) :
    ∃ adjusted : String,
      CmdEnterDef text = Cmd.seq [SCmd.type adjusted, SCmd.wait]
      ∧ strEndsWithNL adjusted = true
      ∧ ((strEndsWithNL text = true ∧ adjusted = text)
         ∨ (strEndsWithNL text = false ∧ adjusted = text ++ "\n")) := by
  by_cases h : strEndsWithNL text = true
  · exact ⟨text, by rw [CmdEnterDef, if_pos h], h, Or.inl ⟨h, rfl⟩⟩
  · have hf : strEndsWithNL text = false := by
      cases hb : strEndsWithNL text
      · rfl
      · exact absurd hb h
    refine ⟨text ++ "\n", ?_, strEndsWithNL_append text, Or.inr ⟨hf, rfl⟩⟩
    rw [CmdEnterDef, if_neg (by rw [hf]; exact Bool.false_ne_true)]

/-- C9: the encoder is a total function, and whenever it returns a
non-empty byte sequence the input was recognized: either the
(lower-cased) name is in the `KEYCODES` table, or it carries a `ctrl-` /
`alt-shift-` / `shift-alt-` / `alt-` prefix whose remainder the
corresponding encoder accepts.  Contrapositively, every unrecognized name
yields the empty byte sequence; exceptions inside the branches are
swallowed (modelled by the `Option` results), so no input raises.
In particular `encode("bogus")` is empty. -/
theorem c9_unknown_keys :
    (∀ name : List Nat,
      escapeKeys name ≠ [] →
        (keyTableGet (mapLower name)).isSome = true
        ∨ (startsWithB ctrlDashL (mapLower name) = true
            ∧ (ctrlEnc ((mapLower name).drop 5)).isSome = true)
        ∨ ((startsWithB altShiftL (mapLower name) = true
            ∨ startsWithB shiftAltL (mapLower name) = true)
            ∧ (altShiftEnc ((mapLower name).drop 10)).isSome = true)
        ∨ (startsWithB altDashL (mapLower name) = true
            ∧ (altEnc ((mapLower name).drop 4)).isSome = true))
    ∧ escapeKeys (strN "bogus") = [] := by
  refine ⟨?_, by decide⟩
  intro name h
  rw [escapeKeys] at h
  by_cases h1 : startsWithB ctrlDashL (mapLower name) = true
  · rw [if_pos h1] at h
    cases hE : ctrlEnc ((mapLower name).drop 5) with
    | some r => exact Or.inr (Or.inl ⟨h1, rfl⟩)
    | none =>
      rw [hE] at h
      cases hT : keyTableGet (mapLower name) with
      | none => rw [hT] at h; exact absurd rfl h
      | some v => exact Or.inl rfl
  · rw [if_neg h1] at h
    by_cases h2 : (startsWithB altShiftL (mapLower name)
        || startsWithB shiftAltL (mapLower name)) = true
    · rw [if_pos h2] at h
      cases hE : altShiftEnc ((mapLower name).drop 10) with
      | some r =>
        exact Or.inr (Or.inr (Or.inl ⟨Bool.or_eq_true_iff.mp h2, rfl⟩))
      | none =>
        rw [hE] at h
        cases hT : keyTableGet (mapLower name) with
        | none => rw [hT] at h; exact absurd rfl h
        | some v => exact Or.inl rfl
    · rw [if_neg h2] at h
      by_cases h3 : startsWithB altDashL (mapLower name) = true
      · rw [if_pos h3] at h
        cases hE : altEnc ((mapLower name).drop 4) with
        | some r => exact Or.inr (Or.inr (Or.inr ⟨h3, rfl⟩))
        | none =>
          rw [hE] at h
          cases hT : keyTableGet (mapLower name) with
          | none => rw [hT] at h; exact absurd rfl h
          | some v => exact Or.inl rfl
      · rw [if_neg h3] at h
        cases hT : keyTableGet (mapLower name) with
        | none => rw [hT] at h; exact absurd rfl h
        | some v => exact Or.inl rfl

/-- C9 witness: `c9_unknown_keys` at the recognized name `esc`, whose
non-empty encoding is explained by the `KEYCODES` table. -/
theorem c9_unknown_keys_witness :
    (keyTableGet (mapLower (strN "esc"))).isSome = true
    ∨ (startsWithB ctrlDashL (mapLower (strN "esc")) = true
        ∧ (ctrlEnc ((mapLower (strN "esc")).drop 5)).isSome = true)
    ∨ ((startsWithB altShiftL (mapLower (strN "esc")) = true
        ∨ startsWithB shiftAltL (mapLower (strN "esc")) = true)
        ∧ (altShiftEnc ((mapLower (strN "esc")).drop 10)).isSome = true)
    ∨ (startsWithB altDashL (mapLower (strN "esc")) = true
        ∧ (altEnc ((mapLower (strN "esc")).drop 4)).isSome = true) :=
  c9_unknown_keys.1 (strN "esc") (by decide)

/-- C4: for a `Type` command over its expanded text, the event sequence
interleaves, for each character in source order, one yielded
`SleepUntil(now + U(0.05, 0.2))` immediately followed by the write of
that character; every delay lies in [0.05, 0.2]; the writes, in order,
are exactly the text; and the driver does not resume the runner (so no
write happens) while a sleep deadline is still pending. -/
theorem c4_type_pacing (text : List Nat) (rands nows : Nat → ℚ)
    (hr : ∀ i, 0 ≤ rands i ∧ rands i < 1) :
    cmdTypeTrace rands nows text 0
      = (List.enumFrom 0 text).flatMap (fun p =>
          [TEv.sleepUntil (nows p.1 + randRange (1/20) (1/5) (rands p.1)),
           TEv.write p.2])
    ∧ (∀ i, 1/20 ≤ randRange (1/20) (1/5) (rands i)
        ∧ randRange (1/20) (1/5) (rands i) ≤ 1/5)
    ∧ (cmdTypeTrace rands nows text 0).filterMap
        (fun e => match e with | TEv.write c => some c | _ => none) = text
    ∧ (∀ (s : St) (t now : ℚ), s.action = some (Act.sleep t) → t ≠ 0 →
        ¬(t - now < 0) →
        (advanceSt now s).masterW = s.masterW ∧ (advanceSt now s).steps = s.steps) := by
  refine ⟨cmdTypeTrace_eq rands nows text 0, ?_, cmdTypeTrace_writes rands nows text 0, ?_⟩
  · intro i
    exact randRange_bounds (rands i) (hr i).1 (hr i).2
  · intro s t now ha ht hnow
    exact advanceSt_pending s t now ha ht hnow

/-- C4 witness: `c4_type_pacing` on the two-character text "hi" with the
random draw 0 and clock 100, and a pending sleep with deadline 5 at time
0. -/
theorem c4_type_pacing_witness :
    (cmdTypeTrace (fun _ => 0) (fun _ => 100) [104, 105] 0).filterMap
      (fun e => match e with | TEv.write c => some c | _ => none) = [104, 105]
    ∧ (advanceSt 0 (St.mk (some []) [] (some (Act.sleep 5)) none true true [] [])).masterW
      = (St.mk (some []) [] (some (Act.sleep 5)) none true true [] []).masterW := by
  have h := c4_type_pacing [104, 105] (fun _ => 0) (fun _ => 100)
    (fun _ => ⟨le_refl 0, by norm_num⟩)
  exact ⟨h.2.2.1,
    (h.2.2.2 (St.mk (some []) [] (some (Act.sleep 5)) none true true [] [])
      5 0 rfl (by norm_num) (by norm_num)).1⟩

/-- C5: with an outstanding wait on the OSC-777 marker, a non-empty chunk
read from the master resolves the action exactly when the marker occurs
as a contiguous substring of the chunk, and the whole chunk — bytes after
the marker included — is forwarded to the real output. -/
theorem c5_wait_resolution (s : St) (inp : SelIn) (d : List Nat)
    (hw : s.watchMaster = true) (ha : s.action = some (Act.waitSeq waitMarker))
    (hm : inp.masterData = some d) (hd : d ≠ []) :
    (ioPhase inp s).1.stdoutW = s.stdoutW ++ d
    ∧ ((ioPhase inp s).1.action = none ↔ ∃ pre suf, d = pre ++ waitMarker ++ suf) := by
  have hde : d.isEmpty = false := by
    cases d with
    | nil => exact absurd rfl hd
    | cons a l => rfl
  have hmain : (masterPhase inp.masterData s).stdoutW = s.stdoutW ++ d
      ∧ ((masterPhase inp.masterData s).action = none
          ↔ bytesContains waitMarker d = true) := by
    rw [hm, masterPhase]
    rw [if_pos hw, hde]
    simp only [Bool.false_eq_true, if_false]
    rw [ha, handleMasterRead]
    have hne : waitMarker.isEmpty = false := by decide
    by_cases hc : bytesContains waitMarker d = true
    · rw [hne, hc]
      simp
    · simp only [hne, Bool.not_false, Bool.true_and]
      rw [Bool.eq_false_iff.mpr hc]
      simp [hc]
  constructor
  · have h1 := (stdinPhase_inv inp.stdinData (masterPhase inp.masterData s)).2
    show (stdinPhase inp.stdinData (masterPhase inp.masterData s)).stdoutW = s.stdoutW ++ d
    rw [h1, hmain.1]
  · have h2 := (stdinPhase_inv inp.stdinData (masterPhase inp.masterData s)).1
    show (stdinPhase inp.stdinData (masterPhase inp.masterData s)).action = none ↔ _
    rw [h2]
    exact hmain.2.trans (bytesContains_iff waitMarker d)

/-- C5 witness: `c5_wait_resolution` on a chunk consisting of a byte,
the marker, and a trailing byte. -/
theorem c5_wait_resolution_witness :
    (ioPhase (SelIn.mk (some ([120] ++ waitMarker ++ [121])) none none)
        (St.mk none [] (some (Act.waitSeq waitMarker)) none true true [] [])).1.action
      = none
    ∧ (ioPhase (SelIn.mk (some ([120] ++ waitMarker ++ [121])) none none)
        (St.mk none [] (some (Act.waitSeq waitMarker)) none true true [] [])).1.stdoutW
      = [] ++ ([120] ++ waitMarker ++ [121]) := by
  have h := c5_wait_resolution
    (St.mk none [] (some (Act.waitSeq waitMarker)) none true true [] [])
    (SelIn.mk (some ([120] ++ waitMarker ++ [121])) none none)
    ([120] ++ waitMarker ++ [121]) rfl rfl rfl (by decide)
  exact ⟨h.2.mpr ⟨[120], [121], rfl⟩, h.1⟩

/-- C6: in the dispatch step of the loop, while the runner is not yet
exhausted, a chunk read from the real input stream is never written to
the pseudo-terminal (the bytes are read and dropped); once the runner is
`None`, every non-empty chunk read from the real input is appended to
the master writes. -/
theorem c6_input_gating (s : St) (inp : SelIn) :
    (s.steps ≠ none → (ioPhase inp s).1.masterW = s.masterW)
    ∧ (∀ d : List Nat, s.steps = none → s.watchStdin = true →
        inp.stdinData = some d → d ≠ [] →
        (ioPhase inp s).1.masterW = s.masterW ++ d) := by
  have hminv := masterPhase_inv inp.masterData s
  constructor
  · intro hs
    show (stdinPhase inp.stdinData (masterPhase inp.masterData s)).masterW = s.masterW
    cases hsd : inp.stdinData with
    | none => rw [stdinPhase, hminv.2.1]
    | some d =>
      rw [stdinPhase]
      have hni : (masterPhase inp.masterData s).steps.isNone = false := by
        rw [hminv.1]
        cases hst : s.steps with
        | none => exact absurd hst hs
        | some steps => rfl
      split_ifs with h1 h2 h3
      · exact hminv.2.1
      · rw [hni] at h3
        exact absurd h3 (by simp)
      · exact hminv.2.1
      · exact hminv.2.1
  · intro d hs hws hsd hd
    have hde : d.isEmpty = false := by
      cases d with
      | nil => exact absurd rfl hd
      | cons a l => rfl
    show (stdinPhase inp.stdinData (masterPhase inp.masterData s)).masterW = s.masterW ++ d
    rw [hsd, stdinPhase]
    have h1 : (masterPhase inp.masterData s).watchStdin = true := by
      rw [hminv.2.2]; exact hws
    have h2 : (masterPhase inp.masterData s).steps.isNone = true := by
      rw [hminv.1, hs]; rfl
    rw [if_pos h1, hde]
    simp only [Bool.false_eq_true, if_false]
    rw [if_pos h2]
    show (masterPhase inp.masterData s).masterW ++ d = s.masterW ++ d
    rw [hminv.2.1]

/-- C6 witness: `c6_input_gating` with an exhausted runner (the chunk is
forwarded) and with a live runner (the chunk is dropped). -/
theorem c6_input_gating_witness :
    (ioPhase (SelIn.mk none (some [120]) none)
        (St.mk none [] none none true true [] [])).1.masterW
      = (St.mk none [] none none true true [] []).masterW ++ [120]
    ∧ (ioPhase (SelIn.mk none (some [120]) none)
        (St.mk (some []) [] none none true true [] [])).1.masterW
      = (St.mk (some []) [] none none true true [] []).masterW :=
  ⟨(c6_input_gating (St.mk none [] none none true true [] [])
      (SelIn.mk none (some [120]) none)).2 [120] rfl rfl rfl (by decide),
   (c6_input_gating (St.mk (some []) [] none none true true [] [])
      (SelIn.mk none (some [120]) none)).1 (by simp)⟩

/-- C7: on every modelled exit of the session block — `_copy` returning
normally, returning because a terminating signal was drained, or raising
an I/O error that `record_command` swallows — the saved terminal mode of
the real input stream is restored, and the restore counter increases by
exactly one. -/
theorem c7_raw_mode_restored (ex : CopyExit) (rawMode : Nat) (t : TermState) :
    (recordCommandTerm true rawMode ex t).mode = t.mode
    ∧ (recordCommandTerm true rawMode ex t).restores = t.restores + 1 := by
  cases ex <;> exact ⟨rfl, rfl⟩

/-- C10: pattern matching is confined to a single chunk: if the marker is
split into a non-empty proper prefix ending one chunk and the non-empty
remainder starting the next — with the whole marker occurring in neither
chunk — then the wait action survives both reads unresolved. -/
theorem c10_no_carryover (p1 p2 pre suf : List Nat)
    (hsplit : waitMarker = p1 ++ p2) (h1 : p1 ≠ []) (h2 : p2 ≠ [])
    (hc1 : bytesContains waitMarker (pre ++ p1) = false)
    (hc2 : bytesContains waitMarker (p2 ++ suf) = false) :
    handleMasterRead
        (handleMasterRead (some (Act.waitSeq waitMarker)) (pre ++ p1)).1
        (p2 ++ suf)
      = (some (Act.waitSeq waitMarker), p2 ++ suf) := by
  rw [handleMasterRead, hc1]
  simp only [Bool.and_false, Bool.false_eq_true, if_false]
  rw [handleMasterRead, hc2]
  simp only [Bool.and_false, Bool.false_eq_true, if_false]

/-- C10 witness: `c10_no_carryover` with the marker split after its fifth
byte across two reads. -/
theorem c10_no_carryover_witness :
    handleMasterRead
        (handleMasterRead (some (Act.waitSeq waitMarker)) ([65] ++ waitMarker.take 5)).1
        (waitMarker.drop 5 ++ [66])
      = (some (Act.waitSeq waitMarker), waitMarker.drop 5 ++ [66]) :=
  c10_no_carryover (waitMarker.take 5) (waitMarker.drop 5) [65] [66]
    (List.take_append_drop 5 waitMarker).symm
    (by decide) (by decide) (by decide) (by decide)

end Termscript
